import Mathlib

/-!
Shallow embedding of `recorder_enterprise.py` (enterprise screen recorder):
the upload daemon's transfer step and scheduling loop, the chunked video
writer's rotation and finalization logic, the motion gate, the per-monitor
recording loop, and the session-lock query.  Machine effects (filesystem,
clock, OS handles) are passed in explicitly as environment parameters.
-/

namespace Recorder

/-! ### UploadDaemon._upload_file (recorder_enterprise.py lines 207-245)

The transfer step's interaction with the filesystem is captured by an
environment: the size of the local source file (`none` when the file no
longer exists), whether `mkdir`/`copy2` raised, and the state of the
destination file after the copy attempt (`none` when it does not exist,
otherwise its byte size). -/

structure UploadEnv where
  srcSize : Option Nat
  copyRaises : Bool
  dstSizeAfterCopy : Option Nat
deriving DecidableEq, Repr

structure UploadResult where
  success : Bool
  localDeleted : Bool
deriving DecidableEq, Repr

/-- `_upload_file`: missing source counts as handled; otherwise copy, then
delete the local file only when the destination exists with equal size. -/
def uploadFile (env : UploadEnv) : UploadResult :=
  match env.srcSize with
  | none => ⟨true, false⟩
  | some s =>
    if env.copyRaises then ⟨false, false⟩
    else
      match env.dstSizeAfterCopy with
      | none => ⟨false, false⟩
      | some d => if d = s then ⟨true, true⟩ else ⟨false, false⟩

/-! ### SessionMonitor (lines 118-141) -/

inductive SessionState where
  | active
  | locked
  | unknown
deriving DecidableEq, Repr

/-- `is_session_locked`: locked iff `OpenInputDesktop` returned a null
handle (modelled as the numeric handle value, `0` = null). -/
def isSessionLocked (hDesk : Nat) : Bool := hDesk == 0

/-- `get_session_state`: any exception inside the query maps to `unknown`. -/
def getSessionState (queryRaises : Bool) (hDesk : Nat) : SessionState :=
  if queryRaises then SessionState.unknown
  else if isSessionLocked hDesk then SessionState.locked
  else SessionState.active

/-- Polling call sites treat a state as locked exactly when it is `locked`. -/
def pollTreatsAsLocked (s : SessionState) : Bool := s == SessionState.locked

/-! ### ChunkedVideoWriter (lines 330-463)

Frames are abstract data (`Nat` identifiers).  A chunk records its start
epoch and the frames written to it.  The writer state tracks the open
chunk, the finalized chunks together with the path each one ended up
under, and the trace of paths passed to the daemon's `mark_file_recording`
and `mark_file_complete`.  The filesystem effects of finalization (does
the temp file exist after releasing the encoder, did the rename succeed)
enter through `FinalizeEnv`. -/

structure WriterConfig where
  employeeName : String
  monitorIndex : Nat
  chunkDurationSeconds : Nat
deriving Repr

structure Chunk where
  startEpoch : Nat
  frames : List Nat
deriving DecidableEq, Repr

structure WriterSt where
  current : Option Chunk
  finalized : List (String × Chunk)
  markedRecording : List String
  queuedComplete : List String
deriving DecidableEq, Repr

structure FinalizeEnv where
  fileExists : Bool
  renameOk : Bool
deriving DecidableEq, Repr

/-- Temporary name used while a chunk is recording (line 382). -/
def tempName (cfg : WriterConfig) (startEpoch : Nat) : String :=
  "recording_" ++ cfg.employeeName ++ "_" ++ toString startEpoch
    ++ "_mon" ++ toString cfg.monitorIndex ++ ".mkv"

/-- `_generate_filename` (lines 370-373). -/
def finalChunkName (cfg : WriterConfig) (startEpoch endEpoch : Nat) : String :=
  "rec_" ++ cfg.employeeName ++ "_" ++ toString startEpoch ++ "_"
    ++ toString endEpoch ++ "_mon" ++ toString cfg.monitorIndex ++ ".mkv"

/-- `_start_new_chunk` (lines 375-400): open an empty chunk stamped with
the current time and register its temp path as recording. -/
def startNewChunk (cfg : WriterConfig) (now : Nat) (s : WriterSt) : WriterSt :=
  { s with
    current := some ⟨now, []⟩
    markedRecording := s.markedRecording ++ [tempName cfg now] }

/-- `_finalize_current_chunk` (lines 402-436): release the encoder; if no
encoder was open or the temp file is gone, return `none` and enqueue
nothing; otherwise rename to the final name and enqueue it, falling back
to enqueueing the temp-named file when the rename raises. -/
def finalizeCurrentChunk (cfg : WriterConfig) (env : FinalizeEnv)
    (endEpoch : Nat) (s : WriterSt) : Option String × WriterSt :=
  match s.current with
  | none => (none, s)
  | some c =>
    let s1 : WriterSt := { s with current := none }
    if env.fileExists then
      if env.renameOk then
        let fp := finalChunkName cfg c.startEpoch endEpoch
        (some fp, { s1 with
          finalized := s1.finalized ++ [(fp, c)]
          queuedComplete := s1.queuedComplete ++ [fp] })
      else
        let tp := tempName cfg c.startEpoch
        (some tp, { s1 with
          finalized := s1.finalized ++ [(tp, c)]
          queuedComplete := s1.queuedComplete ++ [tp] })
    else (none, s1)

/-- `write_frame` (lines 438-459): open a chunk if none is open, rotate if
the chunk duration has elapsed, then write the frame to the open chunk.
Returns the finalized path when a rotation happened. -/
def writeFrame (cfg : WriterConfig) (env : FinalizeEnv) (now : Nat)
    (frame : Nat) (s : WriterSt) : Option String × WriterSt :=
  let rotated : Option String × WriterSt :=
    match s.current with
    | none => (none, startNewChunk cfg now s)
    | some c =>
      if (now : Int) - (c.startEpoch : Int) ≥ (cfg.chunkDurationSeconds : Int) then
        let r := finalizeCurrentChunk cfg env now s
        (r.1, startNewChunk cfg now r.2)
      else (none, s)
  match rotated.2.current with
  | none => (rotated.1, rotated.2)
  | some c =>
    (rotated.1, { rotated.2 with current := some { c with frames := c.frames ++ [frame] } })

/-- `close` (lines 461-463). -/
def closeWriter (cfg : WriterConfig) (env : FinalizeEnv) (endEpoch : Nat)
    (s : WriterSt) : Option String × WriterSt :=
  finalizeCurrentChunk cfg env endEpoch s

/-! ### UploadDaemon file tracking and run loop (lines 177-306)

Paths are strings; `resolve` abstracts `Path.resolve()` (absolute,
symlink-free form).  The in-flight set `_currently_recording` holds
resolved paths and is modelled as a duplicate-free list used with set
semantics. -/

/-- `mark_file_recording` (lines 177-180): add the resolved path to the
in-flight set. -/
def markFileRecording (resolve : String → String) (p : String)
    (recording : List String) : List String :=
  if resolve p ∈ recording then recording else resolve p :: recording

/-- `mark_file_complete` (lines 182-190): drop the resolved path from the
in-flight set and append the (unresolved) path to the priority queue. -/
def markFileComplete (resolve : String → String) (p : String)
    (recording : List String) (uploadQueue : List String) :
    List String × List String :=
  (recording.filter (fun x => x ≠ resolve p), uploadQueue ++ [p])

/-- `_is_file_ready` (lines 192-195). -/
def isFileReady (resolve : String → String) (recording : List String)
    (p : String) : Bool :=
  if resolve p ∈ recording then false else true

/-- A cache directory entry: a path and its modification time. -/
structure CacheFile where
  path : String
  mtime : Nat
deriving DecidableEq, Repr

/-- Insertion step of the mtime sort (models `files.sort(key=mtime)`). -/
def insertByMtime (f : CacheFile) : List CacheFile → List CacheFile
  | [] => [f]
  | g :: rest =>
    if f.mtime ≤ g.mtime then f :: g :: rest else g :: insertByMtime f rest

/-- Sort cache entries by modification time, oldest first. -/
def sortByMtime : List CacheFile → List CacheFile
  | [] => []
  | f :: rest => insertByMtime f (sortByMtime rest)

/-- `_scan_cache_folder` (lines 247-263): the `.mkv` files of the cache
directory that are not in-flight, sorted by modification time ascending.
`files` is the result of the `*.mkv` glob. -/
def scanCacheFolder (resolve : String → String) (recording : List String)
    (files : List CacheFile) : List String :=
  (sortByMtime (files.filter (fun f => isFileReady resolve recording f.path))).map
    (fun f => f.path)

/-- Queue drain of a cycle (lines 276-282): each drained path is inserted
at the front of the pending list unless already present. -/
def drainPriority : List String → List String → List String
  | [], pending => pending
  | f :: rest, pending =>
    drainPriority rest (if f ∈ pending then pending else f :: pending)

/-- Rescan append of a cycle (lines 287-290): each scanned path is
appended to the pending list unless already present. -/
def appendScanned : List String → List String → List String
  | [], pending => pending
  | f :: rest, pending =>
    appendScanned rest (if f ∈ pending then pending else pending ++ [f])

/-- The pending list after the drain step and the rescan-append step of
one cycle, in the order the loop body performs them. -/
def pendingAfterDrainAndScan (resolve : String → String)
    (recording : List String) (files : List CacheFile)
    (queued pending : List String) : List String :=
  appendScanned (scanCacheFolder resolve recording files)
    (drainPriority queued pending)

/-- Outcome of the transfer step of one cycle. -/
structure CycleOutcome where
  attempted : List String
  netAvailable : Bool
  pending : List String
deriving DecidableEq, Repr

/-- Transfer step of a cycle (lines 298-306): when the network is
available and the pending list is non-empty, attempt the head; pop it on
success, otherwise force availability false and keep the list intact. -/
def processPending (netAvail : Bool) (uploadOk : String → Bool)
    (pending : List String) : CycleOutcome :=
  if netAvail then
    match pending with
    | [] => ⟨[], netAvail, []⟩
    | f :: rest =>
      if uploadOk f then ⟨[f], netAvail, rest⟩
      else ⟨[f], false, f :: rest⟩
  else ⟨[], netAvail, pending⟩

/-- One full cycle of `UploadDaemon.run` (lines 273-306): drain the
priority queue, optionally rescan the cache and re-probe the network,
then run the transfer step. -/
def daemonCycle (resolve : String → String) (uploadOk : String → Bool)
    (queued : List String) (files : List CacheFile)
    (recording : List String) (doRescan : Bool) (netAvail : Bool)
    (netProbe : Bool) (pending : List String) : CycleOutcome :=
  let p1 := drainPriority queued pending
  let p2 := if doRescan then
      appendScanned (scanCacheFolder resolve recording files) p1
    else p1
  let net := if doRescan then netProbe else netAvail
  processPending net uploadOk p2

/-! ### Motion detection (`_detect_motion`, lines 535-558)

Frames are row-major lists of BGR pixels with 8-bit channels.  The float
arithmetic of `change_percent` is modelled over `ℚ`. -/

structure Pixel where
  b : Nat
  g : Nat
  r : Nat
deriving DecidableEq, Repr

abbrev Frame := List (List Pixel)

/-- `cv2.cvtColor(..., COLOR_BGR2GRAY)` on one pixel: OpenCV's fixed-point
weights R:4899 G:9617 B:1868 with descale by 2^14 (round half up). -/
def bgrToGray (p : Pixel) : Nat :=
  (p.r * 4899 + p.g * 9617 + p.b * 1868 + 8192) / 16384

def grayFrame (f : Frame) : List (List Nat) :=
  f.map (fun row => row.map bgrToGray)

def natAbsDiff (a b : Nat) : Nat := max a b - min a b

/-- `cv2.absdiff` on grayscale matrices. -/
def absdiffFrame (x y : List (List Nat)) : List (List Nat) :=
  List.zipWith (fun rx ry => List.zipWith natAbsDiff rx ry) x y

/-- `cv2.threshold(diff, 25, 255, THRESH_BINARY)`: 255 where the value
strictly exceeds 25, else 0. -/
def threshBinary25 (d : List (List Nat)) : List (List Nat) :=
  d.map (fun row => row.map (fun v => if 25 < v then 255 else 0))

/-- `np.count_nonzero` on a matrix. -/
def countNonzero (m : List (List Nat)) : Nat :=
  (m.map (fun row => row.countP (fun v => v != 0))).sum

/-- `shape[0]` of a frame. -/
def frameRows (f : Frame) : Nat := f.length

/-- `shape[1]` of a (rectangular) frame. -/
def frameCols (f : Frame) : Nat := (f.headD []).length

/-- `_detect_motion`: retain when there is no previous frame; otherwise
binarize the grayscale difference at 25 and compare the changed-pixel
percentage against the configured threshold (strictly). -/
def detectMotion (motionThreshold : ℚ) (current : Frame)
    (previous : Option Frame) : Bool :=
  match previous with
  | none => true
  | some prev =>
    let diff := absdiffFrame (grayFrame current) (grayFrame prev)
    let thresh := threshBinary25 diff
    let changedPixels := countNonzero thresh
    let totalPixels := frameRows current * frameCols current
    decide ((changedPixels : ℚ) / (totalPixels : ℚ) * 100 > motionThreshold)

/-- Direct characterisation, following the spec's words: the number of
pixel positions whose grayscale values differ by more than 25. -/
def changedPixelCount (current prev : Frame) : Nat :=
  ((absdiffFrame (grayFrame current) (grayFrame prev)).map
    (fun row => row.countP (fun v => 25 < v))).sum

/-! ### Recording loop, per monitor (lines 642-655)

For one monitor, fold the motion gate over the captured frame sequence:
a frame passing the gate is written and becomes the retained reference;
a skipped frame leaves the reference unchanged.  Returns the final
reference and the list of written frames. -/

def recordSession (th : ℚ) : List Frame → Option Frame → Option Frame × List Frame
  | [], last => (last, [])
  | f :: rest, last =>
    if detectMotion th f last then
      let r := recordSession th rest (some f)
      (r.1, f :: r.2)
    else recordSession th rest last

/-! ## Theorems -/

/-- **C1**: in the transfer step, a vanished local file reports success
(and, fed into the cycle's transfer step, its queue entry is popped with
no error); the local file is deleted exactly when the destination exists
with byte size equal to the source's; on a size mismatch both copies are
left in place and failure is reported. -/
theorem upload_transfer_copy_verify_delete (env : UploadEnv) :
    (env.srcSize = none → uploadFile env = ⟨true, false⟩) ∧
    (env.srcSize = none → ∀ f rest,
      processPending true (fun _ => (uploadFile env).success) (f :: rest) =
        ⟨[f], true, rest⟩) ∧
    ((uploadFile env).localDeleted = true ↔
      env.copyRaises = false ∧
        ∃ s, env.srcSize = some s ∧ env.dstSizeAfterCopy = some s) ∧
    (∀ s d, env.srcSize = some s → env.copyRaises = false →
      env.dstSizeAfterCopy = some d → d ≠ s →
      uploadFile env = ⟨false, false⟩) := by
  obtain ⟨src, cr, dst⟩ := env
  refine ⟨?_, ?_, ?_, ?_⟩
  · rintro rfl; rfl
  · rintro rfl f rest; rfl
  · cases src with
    | none => cases cr <;> simp [uploadFile]
    | some s =>
      cases cr with
      | true => simp [uploadFile]
      | false =>
        cases dst with
        | none => simp [uploadFile]
        | some d =>
          by_cases h : d = s <;> simp [uploadFile, h]
  · rintro s d rfl rfl rfl hne
    simp [uploadFile, hne]

theorem upload_transfer_copy_verify_delete_witness :
    uploadFile ⟨some 5, false, some 3⟩ = ⟨false, false⟩ ∧
    uploadFile ⟨none, false, none⟩ = ⟨true, false⟩ :=
  ⟨(upload_transfer_copy_verify_delete ⟨some 5, false, some 3⟩).2.2.2 5 3 rfl rfl rfl
      (by decide),
   (upload_transfer_copy_verify_delete ⟨none, false, none⟩).1 rfl⟩

/-- **C9**: the session query reports locked exactly when
`OpenInputDesktop` yields a null handle; an exception in the state query
maps to `unknown`, which polling does not treat as locked. -/
theorem session_lock_query (hDesk : Nat) :
    (isSessionLocked hDesk = true ↔ hDesk = 0) ∧
    getSessionState true hDesk = SessionState.unknown ∧
    pollTreatsAsLocked (getSessionState true hDesk) = false := by
  refine ⟨?_, rfl, rfl⟩
  simp [isSessionLocked]

/-- **C6**: when the rename at finalization fails, the operation still
succeeds: the temp-named file is enqueued for upload via
`mark_file_complete` and the temp path is returned. -/
theorem finalize_rename_failure_fallback (cfg : WriterConfig)
    (endEpoch : Nat) (s : WriterSt) (c : Chunk) (h : s.current = some c) :
    finalizeCurrentChunk cfg ⟨true, false⟩ endEpoch s =
      (some (tempName cfg c.startEpoch),
       { s with
          current := none
          finalized := s.finalized ++ [(tempName cfg c.startEpoch, c)]
          queuedComplete := s.queuedComplete ++ [tempName cfg c.startEpoch] }) := by
  simp [finalizeCurrentChunk, h]

theorem finalize_rename_failure_fallback_witness :
    finalizeCurrentChunk ⟨"bob", 0, 600⟩ ⟨true, false⟩ 9
        ⟨some ⟨3, [1, 2]⟩, [], [], []⟩ =
      (some "recording_bob_3_mon0.mkv",
       ⟨none, [("recording_bob_3_mon0.mkv", ⟨3, [1, 2]⟩)], [],
        ["recording_bob_3_mon0.mkv"]⟩) := by
  simpa [tempName] using
    finalize_rename_failure_fallback ⟨"bob", 0, 600⟩ 9
      ⟨some ⟨3, [1, 2]⟩, [], [], []⟩ ⟨3, [1, 2]⟩ rfl

/-- After any finalization the writer holds no open chunk. -/
theorem finalize_closes_encoder (cfg : WriterConfig) (env : FinalizeEnv)
    (e : Nat) (s : WriterSt) :
    ((finalizeCurrentChunk cfg env e s).2).current = none := by
  obtain ⟨cur, fin, mr, qc⟩ := s
  cases cur with
  | none => rfl
  | some c =>
    obtain ⟨fe, ro⟩ := env
    cases fe <;> cases ro <;> simp [finalizeCurrentChunk]

/-- Finalizing with no open encoder is a no-op returning `none`. -/
theorem finalize_noop_of_no_encoder (cfg : WriterConfig) (env : FinalizeEnv)
    (e : Nat) (s : WriterSt) (h : s.current = none) :
    finalizeCurrentChunk cfg env e s = (none, s) := by
  simp [finalizeCurrentChunk, h]

/-- **C10**: finalizing with no open encoder, or with a temp file that
never materialized, returns `none`, leaves the upload queue untouched and
drops the chunk; a second consecutive `close` also returns `none`. -/
theorem finalize_unmaterialized_chunk (cfg : WriterConfig)
    (env env2 : FinalizeEnv) (e e2 : Nat) (s : WriterSt) :
    (s.current = none → closeWriter cfg env e s = (none, s)) ∧
    (∀ c, s.current = some c → env.fileExists = false →
      closeWriter cfg env e s = (none, { s with current := none })) ∧
    (closeWriter cfg env2 e2 (closeWriter cfg env e s).2).1 = none := by
  refine ⟨?_, ?_, ?_⟩
  · intro h
    simp [closeWriter, finalizeCurrentChunk, h]
  · intro c hc hfe
    simp [closeWriter, finalizeCurrentChunk, hc, hfe]
  · rw [closeWriter, closeWriter,
      finalize_noop_of_no_encoder cfg env2 e2 _ (finalize_closes_encoder cfg env e s)]

theorem finalize_unmaterialized_chunk_witness :
    closeWriter ⟨"bob", 0, 600⟩ ⟨false, true⟩ 9 ⟨some ⟨3, [1, 2]⟩, [], [], []⟩ =
      (none, ⟨none, [], [], []⟩) :=
  (finalize_unmaterialized_chunk ⟨"bob", 0, 600⟩ ⟨false, true⟩ ⟨false, true⟩ 9 9
      ⟨some ⟨3, [1, 2]⟩, [], [], []⟩).2.1 ⟨3, [1, 2]⟩ rfl rfl

/-- **C2**: when the open chunk's duration has elapsed (and its file
materialized), `write_frame` finalizes it — returning its path, with the
old chunk's frames recorded unchanged — then opens a fresh chunk stamped
`now` and writes the incoming frame into the fresh chunk alone; when the
duration has not elapsed the frame is appended to the open chunk and
`none` is returned; when no chunk is open one is opened to receive the
frame. -/
theorem write_frame_rotation_boundary (cfg : WriterConfig)
    (env : FinalizeEnv) (now frame : Nat) (s : WriterSt) (c : Chunk) :
    (s.current = some c → env.fileExists = true →
      (now : Int) - (c.startEpoch : Int) ≥ (cfg.chunkDurationSeconds : Int) →
      writeFrame cfg env now frame s =
        (some (if env.renameOk then finalChunkName cfg c.startEpoch now
               else tempName cfg c.startEpoch),
         { current := some ⟨now, [frame]⟩
           finalized := s.finalized ++
             [(if env.renameOk then finalChunkName cfg c.startEpoch now
               else tempName cfg c.startEpoch, c)]
           markedRecording := s.markedRecording ++ [tempName cfg now]
           queuedComplete := s.queuedComplete ++
             [if env.renameOk then finalChunkName cfg c.startEpoch now
              else tempName cfg c.startEpoch] })) ∧
    (s.current = some c →
      ¬ ((now : Int) - (c.startEpoch : Int) ≥ (cfg.chunkDurationSeconds : Int)) →
      writeFrame cfg env now frame s =
        (none, { s with current := some ⟨c.startEpoch, c.frames ++ [frame]⟩ })) ∧
    (s.current = none →
      writeFrame cfg env now frame s =
        (none, { s with
          current := some ⟨now, [frame]⟩
          markedRecording := s.markedRecording ++ [tempName cfg now] })) := by
  refine ⟨?_, ?_, ?_⟩
  · intro hc hfe hdur
    cases hro : env.renameOk with
    | true =>
      simp [writeFrame, finalizeCurrentChunk, startNewChunk, hc, hfe, hro, hdur]
    | false =>
      simp [writeFrame, finalizeCurrentChunk, startNewChunk, hc, hfe, hro, hdur]
  · intro hc hdur
    simp [writeFrame, hc, hdur]
  · intro hc
    simp [writeFrame, startNewChunk, hc]

theorem write_frame_rotation_boundary_witness :
    writeFrame ⟨"bob", 0, 10⟩ ⟨true, true⟩ 10 8 ⟨some ⟨0, [7]⟩, [], [], []⟩ =
      (some "rec_bob_0_10_mon0.mkv",
       ⟨some ⟨10, [8]⟩, [("rec_bob_0_10_mon0.mkv", ⟨0, [7]⟩)],
        ["recording_bob_10_mon0.mkv"], ["rec_bob_0_10_mon0.mkv"]⟩) := by
  simpa [finalChunkName, tempName] using
    (write_frame_rotation_boundary ⟨"bob", 0, 10⟩ ⟨true, true⟩ 10 8
      ⟨some ⟨0, [7]⟩, [], [], []⟩ ⟨0, [7]⟩).1 rfl rfl (by decide)

/-- **C3**: the transfer step of a cycle attempts at most one upload, and
exactly the head of the pending list when the network is available and
the list non-empty; a failed attempt forces availability false for the
rest of the cycle (so nothing else is attempted) and leaves the failed
file at the head of the pending list. -/
theorem sync_cycle_single_transfer (uploadOk : String → Bool)
    (pending : List String) :
    (∀ netAvail, (processPending netAvail uploadOk pending).attempted.length ≤ 1) ∧
    (∀ f rest, pending = f :: rest →
      (processPending true uploadOk pending).attempted = [f]) ∧
    (∀ f rest, pending = f :: rest → uploadOk f = false →
      processPending true uploadOk pending = ⟨[f], false, f :: rest⟩) := by
  refine ⟨?_, ?_, ?_⟩
  · intro netAvail
    cases netAvail with
    | false => simp [processPending]
    | true =>
      cases pending with
      | nil => simp [processPending]
      | cons f rest =>
        cases h : uploadOk f <;> simp [processPending, h]
  · rintro f rest rfl
    cases h : uploadOk f <;> simp [processPending, h]
  · rintro f rest rfl h
    simp [processPending, h]

theorem sync_cycle_single_transfer_witness :
    processPending true (fun _ => false) ["a", "b"] = ⟨["a"], false, ["a", "b"]⟩ :=
  (sync_cycle_single_transfer (fun _ => false) ["a", "b"]).2.2 "a" ["b"] rfl rfl

theorem mem_insertByMtime {x f : CacheFile} :
    ∀ {l : List CacheFile}, x ∈ insertByMtime f l ↔ x = f ∨ x ∈ l
  | [] => by simp [insertByMtime]
  | g :: rest => by
    by_cases h : f.mtime ≤ g.mtime
    · simp [insertByMtime, h]
    · simp only [insertByMtime, if_neg h, List.mem_cons,
        mem_insertByMtime (l := rest)]
      tauto

theorem mem_sortByMtime {x : CacheFile} :
    ∀ {l : List CacheFile}, x ∈ sortByMtime l ↔ x ∈ l
  | [] => Iff.rfl
  | f :: rest => by
    simp [sortByMtime, mem_insertByMtime, mem_sortByMtime (l := rest)]

/-- Every path returned by a rescan passes the readiness check against
the in-flight set used for the scan. -/
theorem scan_mem_ready {resolve : String → String}
    {recording : List String} {files : List CacheFile} {p : String}
    (hp : p ∈ scanCacheFolder resolve recording files) :
    isFileReady resolve recording p = true := by
  simp only [scanCacheFolder, List.mem_map] at hp
  obtain ⟨cf, hcf, rfl⟩ := hp
  rw [mem_sortByMtime, List.mem_filter] at hcf
  exact hcf.2

/-- **C4**: after `mark_file_recording p`, `p`'s resolved path is in the
in-flight set, it stays there across markings of other files, and no
rescan returns `p` (nor any alias of it) while it is in-flight; after the
matching `mark_file_complete p`, the resolved path has left the set and
`p` is ready to be scanned again. -/
theorem inflight_exclusion (resolve : String → String) (p : String)
    (recording uploadQueue : List String) (files : List CacheFile) :
    resolve p ∈ markFileRecording resolve p recording ∧
    (∀ f, f ∈ scanCacheFolder resolve (markFileRecording resolve p recording) files →
      resolve f ≠ resolve p) ∧
    p ∉ scanCacheFolder resolve (markFileRecording resolve p recording) files ∧
    (∀ x, resolve x ≠ resolve p →
      resolve p ∈ markFileRecording resolve x (markFileRecording resolve p recording) ∧
      resolve p ∈
        (markFileComplete resolve x (markFileRecording resolve p recording)
          uploadQueue).1) ∧
    resolve p ∉
      (markFileComplete resolve p (markFileRecording resolve p recording)
        uploadQueue).1 ∧
    isFileReady resolve
      (markFileComplete resolve p (markFileRecording resolve p recording)
        uploadQueue).1 p = true := by
  have hmem : resolve p ∈ markFileRecording resolve p recording := by
    unfold markFileRecording
    split
    · assumption
    · exact List.mem_cons_self _ _
  refine ⟨hmem, ?_, ?_, ?_, ?_, ?_⟩
  · intro f hf
    have hready := scan_mem_ready hf
    unfold isFileReady at hready
    intro hcontra
    rw [hcontra] at hready
    simp [hmem] at hready
  · intro hp
    have hready := scan_mem_ready hp
    unfold isFileReady at hready
    simp [hmem] at hready
  · intro x hx
    constructor
    · have h : ∀ (r : List String) (y : String), resolve p ∈ r →
          resolve p ∈ markFileRecording resolve y r := by
        intro r y hy
        unfold markFileRecording
        split
        · exact hy
        · exact List.mem_cons_of_mem _ hy
      exact h _ x hmem
    · unfold markFileComplete
      simp only [List.mem_filter]
      exact ⟨hmem, by simpa using fun h => hx h.symm⟩
  · unfold markFileComplete
    simp
  · unfold isFileReady
    split
    · next h =>
      unfold markFileComplete at h
      simp at h
    · rfl

theorem inflight_exclusion_witness :
    "a" ∈ markFileRecording id "a" [] ∧
    "a" ∉ scanCacheFolder id (markFileRecording id "a" []) [⟨"a", 1⟩, ⟨"b", 0⟩] ∧
    "a" ∉ (markFileComplete id "a" (markFileRecording id "a" []) []).1 :=
  ⟨(inflight_exclusion id "a" [] [] [⟨"a", 1⟩, ⟨"b", 0⟩]).1,
   (inflight_exclusion id "a" [] [] [⟨"a", 1⟩, ⟨"b", 0⟩]).2.2.1,
   (inflight_exclusion id "a" [] [] [⟨"a", 1⟩, ⟨"b", 0⟩]).2.2.2.2.1⟩

/-- The drain step prefixes the pending list with the fresh queue items,
without duplicating anything already pending. -/
theorem drainPriority_decomp :
    ∀ (q pending : List String), ∃ front : List String,
      drainPriority q pending = front ++ pending ∧ front.Nodup ∧
      ∀ x ∈ front, x ∈ q ∧ x ∉ pending
  | [], pending => ⟨[], rfl, List.nodup_nil, by simp⟩
  | f :: rest, pending => by
    by_cases h : f ∈ pending
    · obtain ⟨front, heq, hnd, hmem⟩ := drainPriority_decomp rest pending
      refine ⟨front, ?_, hnd, fun x hx =>
        ⟨List.mem_cons_of_mem _ (hmem x hx).1, (hmem x hx).2⟩⟩
      simpa [drainPriority, h] using heq
    · obtain ⟨front, heq, hnd, hmem⟩ := drainPriority_decomp rest (f :: pending)
      refine ⟨front ++ [f], ?_, ?_, ?_⟩
      · rw [drainPriority, if_neg h, heq, List.append_assoc,
          List.singleton_append]
      · rw [List.nodup_append]
        refine ⟨hnd, List.nodup_singleton f, fun x hx hx' => ?_⟩
        rw [List.mem_singleton] at hx'
        exact (hmem x hx).2 (hx' ▸ List.mem_cons_self _ _)
      · intro x hx
        rcases List.mem_append.mp hx with hx | hx
        · exact ⟨List.mem_cons_of_mem _ (hmem x hx).1,
            fun hc => (hmem x hx).2 (List.mem_cons_of_mem _ hc)⟩
        · rw [List.mem_singleton] at hx
          subst hx
          exact ⟨List.mem_cons_self _ _, h⟩

/-- The rescan-append step suffixes the pending list with the scanned
items not already pending, keeping their scan order. -/
theorem appendScanned_decomp :
    ∀ (s pending : List String), ∃ back : List String,
      appendScanned s pending = pending ++ back ∧ back.Nodup ∧
      back.Sublist s ∧ ∀ x ∈ back, x ∉ pending
  | [], pending => ⟨[], by simp [appendScanned], List.nodup_nil,
      List.nil_sublist _, by simp⟩
  | f :: rest, pending => by
    by_cases h : f ∈ pending
    · obtain ⟨back, heq, hnd, hsub, hmem⟩ := appendScanned_decomp rest pending
      exact ⟨back, by simpa [appendScanned, h] using heq, hnd,
        hsub.cons f, hmem⟩
    · obtain ⟨back, heq, hnd, hsub, hmem⟩ :=
        appendScanned_decomp rest (pending ++ [f])
      refine ⟨f :: back, ?_, ?_, hsub.cons₂ f, ?_⟩
      · rw [appendScanned, if_neg h, heq, List.append_assoc,
          List.singleton_append]
      · refine List.Nodup.cons (fun hc => ?_) hnd
        exact hmem f hc (List.mem_append_right _ (List.mem_singleton_self f))
      · intro x hx
        rcases List.mem_cons.mp hx with rfl | hx
        · exact h
        · exact fun hc => hmem x hx (List.mem_append_left _ hc)

theorem sorted_insertByMtime {f : CacheFile} :
    ∀ {l : List CacheFile},
      l.Pairwise (fun a b => a.mtime ≤ b.mtime) →
      (insertByMtime f l).Pairwise (fun a b => a.mtime ≤ b.mtime)
  | [], _ => by simp [insertByMtime]
  | g :: rest, h => by
    rw [List.pairwise_cons] at h
    by_cases hle : f.mtime ≤ g.mtime
    · rw [insertByMtime, if_pos hle]
      refine List.Pairwise.cons ?_ (List.Pairwise.cons h.1 h.2)
      intro b hb
      rcases List.mem_cons.mp hb with rfl | hb
      · exact hle
      · exact le_trans hle (h.1 b hb)
    · rw [insertByMtime, if_neg hle]
      refine List.Pairwise.cons ?_ (sorted_insertByMtime h.2)
      intro b hb
      rcases mem_insertByMtime.mp hb with rfl | hb
      · omega
      · exact h.1 b hb

/-- The rescan sort really orders cache entries by modification time. -/
theorem sorted_sortByMtime :
    ∀ (l : List CacheFile),
      (sortByMtime l).Pairwise (fun a b => a.mtime ≤ b.mtime)
  | [] => List.Pairwise.nil
  | _ :: rest => sorted_insertByMtime (sorted_sortByMtime rest)

/-- **C5**: in a cycle, the freshly drained completions form a
duplicate-free prefix in front of the previous pending list and the
rescan-discovered files a suffix behind it (each inserted only when not
already present), the suffix preserving the mtime-ascending scan order —
so every file completed this cycle sits ahead of every orphan the same
cycle's rescan discovered, regardless of the orphan's age. -/
theorem priority_completions_precede_rescans (resolve : String → String)
    (recording : List String) (files : List CacheFile)
    (queued pending : List String) :
    ∃ front back : List String,
      pendingAfterDrainAndScan resolve recording files queued pending =
        front ++ pending ++ back ∧
      (∀ x ∈ front, x ∈ queued ∧ x ∉ pending) ∧
      (∀ x ∈ back, x ∈ scanCacheFolder resolve recording files ∧
        x ∉ front ++ pending) ∧
      back.Sublist (scanCacheFolder resolve recording files) ∧
      (pending.Nodup → (front ++ pending ++ back).Nodup) ∧
      (sortByMtime (files.filter fun f =>
          isFileReady resolve recording f.path)).Pairwise
        (fun a b => a.mtime ≤ b.mtime) := by
  obtain ⟨front, hdrain, hfnd, hfmem⟩ := drainPriority_decomp queued pending
  obtain ⟨back, happ, hbnd, hbsub, hbmem⟩ :=
    appendScanned_decomp (scanCacheFolder resolve recording files)
      (drainPriority queued pending)
  have hbmem' : ∀ x ∈ back, x ∉ front ++ pending := by
    intro x hx
    rw [← hdrain]
    exact hbmem x hx
  refine ⟨front, back, ?_, hfmem, ?_, hbsub, ?_, sorted_sortByMtime _⟩
  · rw [pendingAfterDrainAndScan, happ, hdrain, List.append_assoc]
  · exact fun x hx => ⟨hbsub.subset hx, hbmem' x hx⟩
  · intro hpnd
    rw [List.append_assoc, List.nodup_append]
    refine ⟨hfnd, ?_, ?_⟩
    · rw [List.nodup_append]
      refine ⟨hpnd, hbnd, fun x hx hx' => ?_⟩
      exact hbmem' x hx' (List.mem_append_right _ hx)
    · intro x hxf hx'
      rcases List.mem_append.mp hx' with hx | hx
      · exact (hfmem x hxf).2 hx
      · exact hbmem' x hx (List.mem_append_left _ hxf)

theorem priority_completions_precede_rescans_witness :
    (pendingAfterDrainAndScan id [] [⟨"c", 0⟩] ["a"] ["b"]).Nodup := by
  obtain ⟨front, back, heq, -, -, -, hnd, -⟩ :=
    priority_completions_precede_rescans id [] [⟨"c", 0⟩] ["a"] ["b"]
  rw [heq]
  exact hnd (by decide)

/-- Binarizing at 25 and counting nonzeros counts exactly the entries
strictly above 25. -/
theorem countP_thresh_row (row : List Nat) :
    (row.map (fun v => if 25 < v then 255 else 0)).countP (fun v => v != 0) =
      row.countP (fun v => 25 < v) := by
  induction row with
  | nil => rfl
  | cons a l ih =>
    by_cases h : 25 < a <;> simp [List.countP_cons, h, ih]

theorem countNonzero_thresh :
    ∀ (d : List (List Nat)),
      countNonzero (threshBinary25 d) =
        (d.map (fun row => row.countP (fun v => 25 < v))).sum
  | [] => rfl
  | row :: rest => by
    have ih := countNonzero_thresh rest
    simp only [countNonzero, threshBinary25, List.map_cons, List.sum_cons] at ih ⊢
    rw [countP_thresh_row, ih]

/-- The motion gate on two frames decides exactly whether the fraction of
pixels whose grayscale values differ by more than 25 exceeds the
configured threshold (as a percentage). -/
theorem detectMotion_some_iff (th : ℚ) (current prev : Frame) :
    detectMotion th current (some prev) = true ↔
      (changedPixelCount current prev : ℚ) /
        ((frameRows current * frameCols current : Nat) : ℚ) * 100 > th := by
  simp only [detectMotion, decide_eq_true_eq]
  rw [countNonzero_thresh]
  exact Iff.rfl

/-- **C7**: the motion gate retains when no previous frame exists;
otherwise it grayscales both frames, takes the absolute difference,
binarizes it at 25 of 255, and retains iff the changed-pixel percentage
of height×width strictly exceeds the configured threshold. -/
theorem motion_gate_characterisation (th : ℚ) (current prev : Frame) :
    detectMotion th current none = true ∧
    (detectMotion th current (some prev) = true ↔
      (changedPixelCount current prev : ℚ) /
        ((frameRows current * frameCols current : Nat) : ℚ) * 100 > th) :=
  ⟨rfl, detectMotion_some_iff th current prev⟩

theorem countP_zipWith_self (r : List Nat) :
    (List.zipWith natAbsDiff r r).countP (fun v => 25 < v) = 0 := by
  induction r with
  | nil => rfl
  | cons a l ih => simp [List.countP_cons, natAbsDiff, ih]

theorem changedPixelCount_self (x : Frame) : changedPixelCount x x = 0 := by
  have aux : ∀ g : List (List Nat),
      ((List.zipWith (fun rx ry => List.zipWith natAbsDiff rx ry) g g).map
        (fun row => row.countP (fun v => 25 < v))).sum = 0 := by
    intro g
    induction g with
    | nil => rfl
    | cons r rest ih =>
      rw [List.zipWith_cons_cons, List.map_cons, List.sum_cons,
        countP_zipWith_self, ih]
  exact aux (grayFrame x)

/-- A frame compared against itself never passes the gate (for any
non-negative threshold): the changed-pixel percentage is zero. -/
theorem detectMotion_self {th : ℚ} (hth : 0 ≤ th) (x : Frame) :
    detectMotion th x (some x) = false := by
  have h : ¬ detectMotion th x (some x) = true := by
    rw [detectMotion_some_iff, changedPixelCount_self]
    rw [Nat.cast_zero, zero_div, zero_mul]
    exact not_lt.mpr hth
  exact Bool.eq_false_iff.mpr h

/-- Frames identical to the retained reference are skipped and leave the
reference unchanged. -/
theorem recordSession_skip_replicate {th : ℚ} {f : Frame}
    (hskip : detectMotion th f (some f) = false) :
    ∀ (k : Nat) (rest : List Frame),
      recordSession th (List.replicate k f ++ rest) (some f) =
        recordSession th rest (some f)
  | 0, _ => rfl
  | k + 1, rest => by
    rw [List.replicate_succ, List.cons_append, recordSession, hskip]
    simp only [Bool.false_eq_true, if_false]
    exact recordSession_skip_replicate hskip k rest

/-- **C8**: the retained-frame reference changes only when a frame is
written; `n ≥ 1` identical frames produce exactly one written frame, and
appending `m ≥ 1` copies of a frame that differs above threshold produces
exactly one more — two written frames total. -/
theorem motion_gate_retention_counts (th : ℚ) (f g : Frame) (n m : Nat)
    (hth : 0 ≤ th) (hn : 1 ≤ n) (hm : 1 ≤ m)
    (hg : detectMotion th g (some f) = true) :
    recordSession th (List.replicate n f) none = (some f, [f]) ∧
    recordSession th (List.replicate n f ++ List.replicate m g) none =
      (some g, [f, g]) ∧
    (∀ (frames : List Frame) (last : Option Frame),
      ((recordSession th frames last).2 = [] →
        (recordSession th frames last).1 = last) ∧
      ((recordSession th frames last).2 ≠ [] →
        (recordSession th frames last).1 =
          (recordSession th frames last).2.getLast?)) := by
  have hskipf : detectMotion th f (some f) = false := detectMotion_self hth f
  have hskipg : detectMotion th g (some g) = false := detectMotion_self hth g
  obtain ⟨n', rfl⟩ : ∃ n', n = n' + 1 :=
    ⟨n - 1, by omega⟩
  obtain ⟨m', rfl⟩ : ∃ m', m = m' + 1 :=
    ⟨m - 1, by omega⟩
  have hrepf : recordSession th (List.replicate n' f) (some f) = (some f, []) := by
    have := recordSession_skip_replicate hskipf n' []
    simpa using this
  have hrepg : recordSession th (List.replicate m' g) (some g) = (some g, []) := by
    have := recordSession_skip_replicate hskipg m' []
    simpa using this
  refine ⟨?_, ?_, ?_⟩
  · rw [List.replicate_succ, recordSession]
    simp only [detectMotion, if_true, hrepf]
  · rw [List.replicate_succ, List.cons_append, recordSession]
    simp only [detectMotion, if_true]
    rw [recordSession_skip_replicate hskipf n' _, List.replicate_succ,
      recordSession, hg]
    simp only [if_true, hrepg]
  · intro frames
    induction frames with
    | nil => intro last; exact ⟨fun _ => rfl, fun h => absurd rfl h⟩
    | cons a l ih =>
      intro last
      cases hdet : detectMotion th a last with
      | false =>
        rw [recordSession, hdet]
        simp only [Bool.false_eq_true, if_false]
        exact ih last
      | true =>
        rw [recordSession, hdet]
        simp only [if_true]
        constructor
        · intro hcontra
          exact absurd hcontra (List.cons_ne_nil _ _)
        · intro _
          rcases hw : (recordSession th l (some a)).2 with _ | ⟨b, w'⟩
          · rw [(ih (some a)).1 hw]
            rfl
          · rw [(ih (some a)).2 (by rw [hw]; exact List.cons_ne_nil _ _), hw,
              List.getLast?_cons_cons]

theorem motion_gate_retention_counts_witness :
    recordSession (1/2)
        (List.replicate 2 [[⟨0, 0, 0⟩]] ++ List.replicate 2 [[⟨255, 255, 255⟩]])
        none =
      (some [[⟨255, 255, 255⟩]], [[[⟨0, 0, 0⟩]], [[⟨255, 255, 255⟩]]]) :=
  (motion_gate_retention_counts (1/2) [[⟨0, 0, 0⟩]] [[⟨255, 255, 255⟩]] 2 2
    (by norm_num) (by norm_num) (by norm_num)
    (by
      simp [detectMotion, absdiffFrame, grayFrame, bgrToGray, threshBinary25,
        countNonzero, natAbsDiff, frameRows, frameCols]
      norm_num)).2.1

end Recorder
